import Mathlib

/-!
Shallow embedding of the http-transport library: the HttpTransport facade
(lib/HttpTransport.js, including the urlUtil-based revision), the
JsonpTransport variant (lib/JsonpTransport.js), and the private serialize and
deserialize helpers.  The external collaborators are modelled as data: the
httpinvoke call is reified as the Request descriptor it would receive,
JSON.parse is an uninterpreted constructor on bodies, and Date.now is a
numeric parameter.  In-place mutation (of the caller-supplied params object
and of the response descriptor) is modelled with an explicit address-indexed
store.
-/

set_option linter.unusedVariables false

deriving instance DecidableEq for Except

namespace HttpTransportLib

/-! ### Percent-encoding (encodeURIComponent, as used by serialize) -/

/-- Upper-case hex digit for a nibble, as produced by encodeURIComponent. -/
def hexDigit (n : Nat) : Char :=
  if n < 10 then Char.ofNat (48 + n)
  else if n < 16 then Char.ofNat (55 + n)
  else Char.ofNat 48

/-- Numeric value of a hex digit character (upper or lower case). -/
def hexVal (c : Char) : Option Nat :=
  if 48 ≤ c.toNat ∧ c.toNat ≤ 57 then some (c.toNat - 48)
  else if 65 ≤ c.toNat ∧ c.toNat ≤ 70 then some (c.toNat - 55)
  else if 97 ≤ c.toNat ∧ c.toNat ≤ 102 then some (c.toNat - 87)
  else none

/-- UTF-8 byte sequence of a Unicode scalar value. -/
def utf8Bytes (c : Char) : List Nat :=
  let n := c.toNat
  if n < 128 then [n]
  else if n < 2048 then [192 + n / 64, 128 + n % 64]
  else if n < 65536 then [224 + n / 4096, 128 + n / 64 % 64, 128 + n % 64]
  else [240 + n / 262144, 128 + n / 4096 % 64, 128 + n / 64 % 64, 128 + n % 64]

/-- Characters that encodeURIComponent leaves unescaped:
letters, digits, and the marks - _ . ! ~ * apostrophe ( ). -/
def isUnreservedChar (c : Char) : Bool :=
  c.isAlpha || c.isDigit || c == '-' || c == '_' || c == '.' || c == '!' ||
    c == '~' || c == '*' || c == Char.ofNat 39 || c == '(' || c == ')'

/-- Percent-encode a byte list as a run of percent-hex-hex triples. -/
def pctEncBytes : List Nat → List Char
  | [] => []
  | b :: bs => '%' :: hexDigit (b / 16) :: hexDigit (b % 16) :: pctEncBytes bs

/-- encodeURIComponent on a single character. -/
def encChar (c : Char) : List Char :=
  if isUnreservedChar c then [c] else pctEncBytes (utf8Bytes c)

/-- encodeURIComponent on a character list. -/
def encodeL : List Char → List Char
  | [] => []
  | c :: cs => encChar c ++ encodeL cs

/-- The JS builtin encodeURIComponent (external collaborator of serialize). -/
def encodeURIComponent (s : String) : String := ⟨encodeL s.data⟩

/-! ### Data model: params mappings and the serialize helper -/

/-- A scalar parameter value: string, (integral) number, or boolean. -/
inductive Scalar where
  | s (v : String)
  | i (v : Int)
  | b (v : Bool)
  deriving DecidableEq, Repr

/-- JS ToString of a scalar, as applied by encodeURIComponent to values. -/
def Scalar.toStr : Scalar → String
  | .s v => v
  | .i v => toString v
  | .b v => if v then "true" else "false"

/-- A flat params mapping, in property-insertion order (Object.keys order). -/
abbrev ParamsMap := List (String × Scalar)

/-- Array.prototype.join with separator ampersand. -/
def joinAmp : List String → String
  | [] => ""
  | [x] => x
  | x :: xs => x ++ "&" ++ joinAmp xs

/-- The private serialize helper: over Object.keys(data) in insertion order,
join the encoded key-equals-encoded-value segments with ampersands. -/
def serialize (data : ParamsMap) : String :=
  joinAmp (data.map fun kv => encodeURIComponent kv.1 ++ "=" ++ encodeURIComponent kv.2.toStr)

/-! ### JS values, errors, and the reified httpinvoke request -/

/-- The JS values a caller may pass where a string url is expected. -/
inductive JsVal where
  | str (s : String)
  | num (n : Int)
  | boolean (b : Bool)
  | nullV
  | undef
  deriving DecidableEq, Repr

/-- typeof v is the string type. -/
def JsVal.isString : JsVal → Bool
  | .str _ => true
  | _ => false

/-- A synchronously thrown JS error: a TypeError, or a plain Error message. -/
inductive JsErr where
  | typeError (msg : String)
  | errorMsg (msg : String)
  deriving DecidableEq, Repr

/-- Whether an error is a TypeError (the spec calls these InvalidArgument). -/
def JsErr.isTypeError : JsErr → Bool
  | .typeError _ => true
  | _ => false

/-- The request handed to the httpinvoke collaborator: url, verb, the input
(request body) option, and the headers option. -/
structure Request where
  url : String
  method : String
  input : String
  headers : List (String × String)
  deriving DecidableEq, Repr

/-! ### The HttpTransport facade (lib/HttpTransport.js) -/

/-- An HttpTransport instance: holds only the url root stored at construction. -/
structure HttpTransport where
  urlRoot : String
  deriving DecidableEq, Repr

/-- The HttpTransport constructor: throws TypeError unless urlRoot is
undefined or a string; stores urlRoot or the empty string. -/
def HttpTransport.create (urlRoot : Option JsVal) : Except JsErr HttpTransport :=
  match urlRoot with
  | none => .ok ⟨""⟩
  | some (.str s) => .ok ⟨s⟩
  | some _ => .error (.typeError "urlRoot")

/-- serialize as invoked on a possibly-absent argument: Object.keys throws a
TypeError when data is undefined. -/
def serializeJs (data : Option ParamsMap) : Except JsErr String :=
  match data with
  | none => .error (.typeError "Cannot convert undefined or null to object")
  | some m => .ok (serialize m)

/-- HttpTransport.prototype.get: validates url, defaults params with
params-or-empty, then calls httpInvoke(url, GET, input := serialize(params)).
Note the stored urlRoot is never consulted and the serialized params are the
request input (body), not part of the url.  The response of the GET pipeline
is passed through deserialize (modelled separately). -/
def HttpTransport.get (t : HttpTransport) (url : JsVal) (params : Option ParamsMap) :
    Except JsErr Request :=
  match url with
  | .str u => .ok ⟨u, "GET", serialize (params.getD []), []⟩
  | _ => .error (.typeError "url")

/-- HttpTransport.prototype.post: validates url, serializes data with no
default (Object.keys throws on undefined), sets the form-urlencoded and
no-cache headers. -/
def HttpTransport.post (t : HttpTransport) (url : JsVal) (data : Option ParamsMap) :
    Except JsErr Request :=
  match url with
  | .str u =>
    match serializeJs data with
    | .ok input => .ok ⟨u, "POST", input,
        [("Content-Type", "application/x-www-form-urlencoded"), ("Cache-Control", "no-cache")]⟩
    | .error e => .error e
  | _ => .error (.typeError "url")

/-- HttpTransport.prototype.put: same shape as post with verb PUT. -/
def HttpTransport.put (t : HttpTransport) (url : JsVal) (data : Option ParamsMap) :
    Except JsErr Request :=
  match url with
  | .str u =>
    match serializeJs data with
    | .ok input => .ok ⟨u, "PUT", input,
        [("Content-Type", "application/x-www-form-urlencoded"), ("Cache-Control", "no-cache")]⟩
    | .error e => .error e
  | _ => .error (.typeError "url")

/-- HttpTransport.prototype.delete: validates url, defaults params, issues
DELETE with input := serialize(params) and no headers option. -/
def HttpTransport.delete (t : HttpTransport) (url : JsVal) (params : Option ParamsMap) :
    Except JsErr Request :=
  match url with
  | .str u => .ok ⟨u, "DELETE", serialize (params.getD []), []⟩
  | _ => .error (.typeError "url")

/-- Deprecated alias del for delete. -/
def HttpTransport.del (t : HttpTransport) (url : JsVal) (params : Option ParamsMap) :
    Except JsErr Request :=
  t.delete url params

/-- The private makeUrl helper: urlRoot concatenated with url.  It is defined
by the source but never called by any verb method. -/
def HttpTransport.makeUrl (t : HttpTransport) (url : String) : String :=
  t.urlRoot ++ url

/-- Node urlUtil.format with only a query object: empty serialization gives
the empty string, otherwise a question mark followed by the query string. -/
def urlFormatQuery (params : ParamsMap) : String :=
  let q := serialize params
  if q = "" then "" else "?" ++ q

/-- get of the urlUtil-based HttpTransport revision: validates url, defaults
params, and requests url concatenated with urlUtil.format of the query, with
no input option. -/
def httpTransportGetV2 (url : JsVal) (params : Option ParamsMap) : Except JsErr Request :=
  match url with
  | .str u => .ok ⟨u ++ urlFormatQuery (params.getD []), "GET", "", []⟩
  | _ => .error (.typeError "url")

/-! ### The deserialize helper (response descriptors) -/

/-- A response body: the raw wire string, or the value of the external
JSON.parse applied to a body (an uninterpreted constructor). -/
inductive Body where
  | str (s : String)
  | jsonParse (b : Body)
  deriving DecidableEq, Repr

/-- An httpinvoke response descriptor; headers is none when the environment
returned no headers object. -/
structure Resp where
  statusCode : Int
  headers : Option (List (String × String))
  body : Body
  deriving DecidableEq, Repr

/-- Property read on a headers object: undefined (none) when absent. -/
def lookupHeader (hs : List (String × String)) (k : String) : Option String :=
  match hs.find? (fun kv => kv.1 == k) with
  | some kv => some kv.2
  | none => none

/-- Does the needle occur at the head of the haystack. -/
def chStarts : List Char → List Char → Bool
  | [], _ => true
  | _ :: _, [] => false
  | a :: as, b :: bs => a == b && chStarts as bs

/-- Does the needle occur contiguously anywhere in the haystack. -/
def chSearch (needle : List Char) : List Char → Bool
  | [] => needle.isEmpty
  | c :: rest => chStarts needle (c :: rest) || chSearch needle rest

/-- String.prototype.indexOf(sub) is nonnegative, i.e. sub occurs in hay. -/
def containsSub (hay sub : String) : Bool := chSearch sub.data hay.data

/-- The guarded deserialize (the revision with the bail-out comment): returns
early when headers are absent or the content-type value is falsy (absent or
empty), parses the body when the content-type contains application/json. -/
def deserializeResp (r : Resp) : Resp :=
  match r.headers with
  | none => r
  | some hs =>
    match lookupHeader hs "content-type" with
    | none => r
    | some t =>
      if t = "" then r
      else if containsSub t "application/json" then { r with body := .jsonParse r.body }
      else r

/-- The guarded deserialize on a possibly-null descriptor (the leading
not-resp check). -/
def deserialize (resp : Option Resp) : Option Resp :=
  match resp with
  | none => none
  | some r => some (deserializeResp r)

/-- The unguarded deserialize revision (no falsy-content-type bail-out):
reading indexOf off an undefined content-type throws a TypeError. -/
def deserializeV2 (resp : Option Resp) : Except JsErr (Option Resp) :=
  match resp with
  | none => .ok none
  | some r =>
    match r.headers with
    | none => .ok (some r)
    | some hs =>
      match lookupHeader hs "content-type" with
      | none => .error (.typeError "Cannot read property indexOf of undefined")
      | some t =>
        .ok (some (if containsSub t "application/json" then { r with body := .jsonParse r.body } else r))

/-- An address-indexed store of response descriptor objects, for stating
in-place mutation. -/
abbrev RespStore := Nat → Option Resp

/-- Overwrite the object at one address. -/
def updateResp (σ : RespStore) (a : Nat) (r : Resp) : RespStore :=
  fun b => if b = a then some r else σ b

/-- The guarded deserialize acting on the descriptor object at address a:
the only write is the body-field assignment on that same object, and the
returned reference is the argument reference. -/
def deserializeAt (a : Nat) (σ : RespStore) : RespStore × Nat :=
  match σ a with
  | none => (σ, a)
  | some r =>
    match r.headers with
    | none => (σ, a)
    | some hs =>
      match lookupHeader hs "content-type" with
      | none => (σ, a)
      | some t =>
        if t = "" then (σ, a)
        else if containsSub t "application/json" then
          (updateResp σ a { r with body := .jsonParse r.body }, a)
        else (σ, a)

/-! ### The JsonpTransport variant (lib/JsonpTransport.js) -/

/-- A JsonpTransport instance (urlRoot stored, never consulted by get). -/
structure JsonpTransport where
  urlRoot : String
  deriving DecidableEq, Repr

/-- JS property assignment on an object: overwrite in place when the key is
present, append when it is new. -/
def jsSet (m : ParamsMap) (k : String) (v : Scalar) : ParamsMap :=
  match m with
  | [] => [(k, v)]
  | (k0, v0) :: rest => if k0 = k then (k, v) :: rest else (k0, v0) :: jsSet rest k v

/-- Property read on a params object. -/
def lookupParam (m : ParamsMap) (k : String) : Option Scalar :=
  match m.find? (fun kv => kv.1 == k) with
  | some kv => some kv.2
  | none => none

/-- Node path.join for the two-segment shapes used here (no dot segments). -/
def pathJoin (a b : String) : String :=
  if a = "" then b
  else if a.endsWith "/" then a ++ b
  else a ++ "/" ++ b

/-- The callback parameter value: the JsonpTransport tag with Date.now(). -/
def jsonpCallbackName (now : Nat) : String := "JsonpTransport" ++ toString now

/-- An address-indexed store of params objects. -/
abbrev ParamsStore := Nat → Option ParamsMap

/-- Overwrite the params object at one address. -/
def updateParams (σ : ParamsStore) (a : Nat) (m : ParamsMap) : ParamsStore :=
  fun b => if b = a then some m else σ b

/-- JsonpTransport.prototype.get acting on the params object at the given
address (none models an absent params argument, for which params-or-empty
allocates a fresh object the caller never sees).  It assigns params.callback,
formats the query from the same (mutated) object, and path-joins it onto the
url; the result is the new store and the url given to the jsonp client.
Date.now() is the now parameter.  A dangling reference behaves as the absent
case; the theorems only use valid references. -/
def JsonpTransport.getAt (t : JsonpTransport) (now : Nat) (url : String)
    (paramsRef : Option Nat) (σ : ParamsStore) : ParamsStore × String :=
  match paramsRef with
  | none =>
    let m := jsSet [] "callback" (.s (jsonpCallbackName now))
    (σ, pathJoin url (urlFormatQuery m))
  | some a =>
    match σ a with
    | none =>
      let m := jsSet [] "callback" (.s (jsonpCallbackName now))
      (σ, pathJoin url (urlFormatQuery m))
    | some m0 =>
      let m1 := jsSet m0 "callback" (.s (jsonpCallbackName now))
      (updateParams σ a m1, pathJoin url (urlFormatQuery m1))

/-- JsonpTransport.prototype.post: throws a plain not-implemented Error for
any arguments, before any network activity. -/
def JsonpTransport.post (t : JsonpTransport) (url : JsVal) (data : Option ParamsMap) :
    Except JsErr Request :=
  .error (.errorMsg "not implemented")

/-- JsonpTransport.prototype.put: throws a plain not-implemented Error for
any arguments, before any network activity. -/
def JsonpTransport.put (t : JsonpTransport) (url : JsVal) (data : Option ParamsMap) :
    Except JsErr Request :=
  .error (.errorMsg "not implemented")

/-- JsonpTransport.prototype.delete: throws a plain not-implemented Error for
any arguments, before any network activity. -/
def JsonpTransport.delete (t : JsonpTransport) (url : JsVal) (params : Option ParamsMap) :
    Except JsErr Request :=
  .error (.errorMsg "not implemented")

/-! ### Spec-side query-string parser (for the round-trip claim)

Modelled from the spec: parse a query string back into key-value pairs by
percent-decoding each side of each equals sign in each ampersand-separated
segment; the empty string parses to the empty mapping. -/

/-- Split a character list on every occurrence of the separator (the result
is always nonempty; the head of the recursive result collects the current
character). -/
def splitOnCh (sep : Char) : List Char → List (List Char)
  | [] => [[]]
  | c :: cs =>
    if c = sep then [] :: splitOnCh sep cs
    else
      let r := splitOnCh sep cs
      (c :: r.headD []) :: r.tail

/-- Split a character list at the first occurrence of the separator. -/
def splitFirstCh (sep : Char) : List Char → List Char × List Char
  | [] => ([], [])
  | c :: cs =>
    if c = sep then ([], cs)
    else
      let p := splitFirstCh sep cs
      (c :: p.1, p.2)

/-- Percent-decoding, byte layer: each percent-hex-hex triple yields one
byte, any other character contributes its UTF-8 bytes. -/
def toBytes : List Char → Option (List Nat)
  | [] => some []
  | c :: rest =>
    if c = '%' then
      match rest with
      | h :: lo :: rest2 =>
        Option.bind (hexVal h) fun hv =>
          Option.bind (hexVal lo) fun lv =>
            Option.map (fun tl => (16 * hv + lv) :: tl) (toBytes rest2)
      | _ => none
    else Option.map (fun tl => utf8Bytes c ++ tl) (toBytes rest)

/-- A UTF-8 continuation byte. -/
def isCont (b : Nat) : Bool := 128 ≤ b && b < 192

/-- Classify a UTF-8 lead byte: the number of continuation bytes that must
follow and the initial accumulator value. -/
def utf8Lead (b : Nat) : Option (Nat × Nat) :=
  if b < 128 then some (0, b)
  else if b < 192 then none
  else if b < 224 then some (1, b - 192)
  else if b < 240 then some (2, b - 224)
  else if b < 248 then some (3, b - 240)
  else none

/-- Fold continuation bytes onto an accumulated scalar value. -/
def contVal (v : Nat) (bs : List Nat) : Nat :=
  bs.foldl (fun acc b => acc * 64 + (b - 128)) v

/-- UTF-8 decoding of a byte list. -/
def utf8Decode : List Nat → Option (List Char)
  | [] => some []
  | b :: rest =>
    match utf8Lead b with
    | none => none
    | some kv =>
      let conts := rest.take kv.1
      if conts.length = kv.1 ∧ conts.all isCont = true then
        Option.map (fun cs => Char.ofNat (contVal kv.2 conts) :: cs) (utf8Decode (rest.drop kv.1))
      else none
termination_by l => l.length
decreasing_by
  simp
  omega

/-- Percent-decode a character list. -/
def percentDecodeL (l : List Char) : Option (List Char) :=
  match toBytes l with
  | some bs => utf8Decode bs
  | none => none

/-- UTF-8 encoding of a character list (the byte layer reached by toBytes on
an encodeURIComponent image). -/
def utf8EncL : List Char → List Nat
  | [] => []
  | c :: cs => utf8Bytes c ++ utf8EncL cs

/-- Percent-decode a string. -/
def percentDecode (s : String) : Option String :=
  match percentDecodeL s.data with
  | some l => some ⟨l⟩
  | none => none

/-- Decode a list of segments into key-value pairs. -/
def parsePairs : List (List Char) → Option (List (String × String))
  | [] => some []
  | seg :: rest =>
    let p := splitFirstCh '=' seg
    match percentDecodeL p.1, percentDecodeL p.2, parsePairs rest with
    | some k, some v, some tl => some ((⟨k⟩, ⟨v⟩) :: tl)
    | _, _, _ => none

/-- Parse a whole query string (spec-side round-trip parser). -/
def parseQueryString (q : String) : Option (List (String × String)) :=
  if q.data = [] then some [] else parsePairs (splitOnCh '&' q.data)

/-! ### Helper lemmas -/

/-- Writing one key leaves membership of pairs with any other key unchanged. -/
theorem jsSet_mem_of_ne (m : ParamsMap) (k : String) (v : Scalar) (k1 : String) (v1 : Scalar)
    (hne : k1 ≠ k) : ((k1, v1) ∈ jsSet m k v ↔ (k1, v1) ∈ m) := by
  induction m with
  | nil => simp [jsSet, Prod.ext_iff, hne]
  | cons kv rest ih =>
    obtain ⟨k0, v0⟩ := kv
    by_cases h0 : k0 = k
    · subst h0
      simp [jsSet, Prod.ext_iff, hne]
    · simp only [jsSet, if_neg h0, List.mem_cons, ih]

/-- Reading back the key just written yields the value written. -/
theorem lookupParam_jsSet_self (m : ParamsMap) (k : String) (v : Scalar) :
    lookupParam (jsSet m k v) k = some v := by
  induction m with
  | nil => simp [jsSet, lookupParam]
  | cons kv rest ih =>
    obtain ⟨k0, v0⟩ := kv
    by_cases h0 : k0 = k
    · simp [jsSet, lookupParam, h0]
    · simpa [jsSet, lookupParam, h0, List.find?] using ih

theorem hexVal_hexDigit : ∀ n : Nat, n < 16 → hexVal (hexDigit n) = some n := by decide

theorem hexDigit_ne : ∀ n : Nat, n < 16 → hexDigit n ≠ '&' ∧ hexDigit n ≠ '=' := by decide

theorem utf8Bytes_lt (c : Char) : ∀ b ∈ utf8Bytes c, b < 256 := by
  have hv : c.toNat < 1114112 := by
    have h := c.valid
    simp [UInt32.isValidChar, Nat.isValidChar] at h
    unfold Char.toNat
    omega
  intro b hb
  unfold utf8Bytes at hb
  by_cases h1 : c.toNat < 128
  · simp [h1] at hb
    omega
  · by_cases h2 : c.toNat < 2048
    · simp [h1, h2] at hb
      omega
    · by_cases h3 : c.toNat < 65536
      · simp [h1, h2, h3] at hb
        rcases hb with hb | hb | hb <;> omega
      · simp [h1, h2, h3] at hb
        rcases hb with hb | hb | hb | hb <;> omega

theorem pctEncBytes_mem (bs : List Nat) (h : ∀ b ∈ bs, b < 256) :
    ∀ x ∈ pctEncBytes bs, x ≠ '&' ∧ x ≠ '=' := by
  induction bs with
  | nil =>
    intro x hx
    simp [pctEncBytes] at hx
  | cons b bs ih =>
    intro x hx
    have hb : b < 256 := h b (by simp)
    simp only [pctEncBytes, List.mem_cons] at hx
    rcases hx with hx | hx | hx | hx
    · subst hx
      constructor <;> decide
    · subst hx
      exact hexDigit_ne (b / 16) (by omega)
    · subst hx
      exact hexDigit_ne (b % 16) (by omega)
    · exact ih (fun y hy => h y (by simp [hy])) x hx

theorem encChar_mem (c : Char) : ∀ x ∈ encChar c, x ≠ '&' ∧ x ≠ '=' := by
  intro x hx
  unfold encChar at hx
  by_cases hu : isUnreservedChar c = true
  · rw [if_pos hu] at hx
    simp at hx
    subst hx
    constructor
    · intro he
      rw [he] at hu
      exact absurd hu (by decide)
    · intro he
      rw [he] at hu
      exact absurd hu (by decide)
  · rw [if_neg hu] at hx
    exact pctEncBytes_mem (utf8Bytes c) (utf8Bytes_lt c) x hx

theorem encodeL_not_mem (l : List Char) : '&' ∉ encodeL l ∧ '=' ∉ encodeL l := by
  induction l with
  | nil => simp [encodeL]
  | cons c cs ih =>
    simp only [encodeL, List.mem_append]
    constructor
    · rintro (h | h)
      · exact (encChar_mem c '&' h).1 rfl
      · exact ih.1 h
    · rintro (h | h)
      · exact (encChar_mem c '=' h).2 rfl
      · exact ih.2 h

theorem splitOn_no_sep (sep : Char) (l : List Char) (h : sep ∉ l) : splitOnCh sep l = [l] := by
  induction l with
  | nil => rfl
  | cons c cs ih =>
    have hc : ¬ c = sep := fun he => h (by simp [he])
    simp only [splitOnCh, if_neg hc]
    rw [ih (fun hm => h (by simp [hm]))]
    simp

theorem splitOn_append (sep : Char) (l1 l2 : List Char) (h : sep ∉ l1) :
    splitOnCh sep (l1 ++ sep :: l2) = l1 :: splitOnCh sep l2 := by
  induction l1 with
  | nil => simp [splitOnCh]
  | cons c cs ih =>
    have hc : ¬ c = sep := fun he => h (by simp [he])
    simp only [List.cons_append, splitOnCh, if_neg hc, List.append_eq]
    rw [ih (fun hm => h (by simp [hm]))]
    simp

theorem splitFirst_append (sep : Char) (k v : List Char) (h : sep ∉ k) :
    splitFirstCh sep (k ++ sep :: v) = (k, v) := by
  induction k with
  | nil => simp [splitFirstCh]
  | cons c cs ih =>
    have hc : ¬ c = sep := fun he => h (by simp [he])
    simp only [List.cons_append]
    unfold splitFirstCh
    rw [if_neg hc, ih (fun hm => h (by simp [hm]))]

theorem utf8Decode_b1 (b : Nat) (rest : List Nat) (h : b < 128) :
    utf8Decode (b :: rest) = Option.map (fun cs => Char.ofNat b :: cs) (utf8Decode rest) := by
  have hl : utf8Lead b = some (0, b) := by
    unfold utf8Lead
    rw [if_pos h]
  rw [utf8Decode, hl]
  simp [contVal]

theorem utf8Decode_b2 (b b2 : Nat) (rest : List Nat) (h1 : 192 ≤ b) (h2 : b < 224)
    (hc : isCont b2 = true) :
    utf8Decode (b :: b2 :: rest) =
      Option.map (fun cs => Char.ofNat ((b - 192) * 64 + (b2 - 128)) :: cs) (utf8Decode rest) := by
  have hl : utf8Lead b = some (1, b - 192) := by
    unfold utf8Lead
    rw [if_neg (by omega), if_neg (by omega), if_pos (by omega)]
  rw [utf8Decode, hl]
  simp [contVal, hc]

theorem utf8Decode_b3 (b b2 b3 : Nat) (rest : List Nat) (h1 : 224 ≤ b) (h2 : b < 240)
    (hc : isCont b2 = true) (hc2 : isCont b3 = true) :
    utf8Decode (b :: b2 :: b3 :: rest) =
      Option.map (fun cs => Char.ofNat (((b - 224) * 64 + (b2 - 128)) * 64 + (b3 - 128)) :: cs)
        (utf8Decode rest) := by
  have hl : utf8Lead b = some (2, b - 224) := by
    unfold utf8Lead
    rw [if_neg (by omega), if_neg (by omega), if_neg (by omega), if_pos (by omega)]
  rw [utf8Decode, hl]
  simp [contVal, hc, hc2]

theorem utf8Decode_b4 (b b2 b3 b4 : Nat) (rest : List Nat) (h1 : 240 ≤ b) (h2 : b < 248)
    (hc : isCont b2 = true) (hc2 : isCont b3 = true) (hc3 : isCont b4 = true) :
    utf8Decode (b :: b2 :: b3 :: b4 :: rest) =
      Option.map
        (fun cs =>
          Char.ofNat ((((b - 240) * 64 + (b2 - 128)) * 64 + (b3 - 128)) * 64 + (b4 - 128)) :: cs)
        (utf8Decode rest) := by
  have hl : utf8Lead b = some (3, b - 240) := by
    unfold utf8Lead
    rw [if_neg (by omega), if_neg (by omega), if_neg (by omega), if_neg (by omega),
      if_pos (by omega)]
  rw [utf8Decode, hl]
  simp [contVal, hc, hc2, hc3]

theorem utf8Decode_utf8Bytes (c : Char) (rest : List Nat) :
    utf8Decode (utf8Bytes c ++ rest) = Option.map (fun t => c :: t) (utf8Decode rest) := by
  have hv : c.toNat < 1114112 := by
    have h := c.valid
    simp [UInt32.isValidChar, Nat.isValidChar] at h
    unfold Char.toNat
    omega
  simp only [utf8Bytes]
  by_cases h1 : c.toNat < 128
  · rw [if_pos h1]
    simp only [List.cons_append, List.nil_append]
    rw [utf8Decode_b1 _ _ h1, Char.ofNat_toNat]
  · by_cases h2 : c.toNat < 2048
    · rw [if_neg h1, if_pos h2]
      simp only [List.cons_append, List.nil_append]
      rw [utf8Decode_b2 _ _ _ (by omega) (by omega) (by simp [isCont]; omega)]
      have harg : (192 + c.toNat / 64 - 192) * 64 + (128 + c.toNat % 64 - 128) = c.toNat := by
        omega
      rw [harg, Char.ofNat_toNat]
    · by_cases h3 : c.toNat < 65536
      · rw [if_neg h1, if_neg h2, if_pos h3]
        simp only [List.cons_append, List.nil_append]
        rw [utf8Decode_b3 _ _ _ _ (by omega) (by omega) (by simp [isCont]; omega)
          (by simp [isCont]; omega)]
        have harg : ((224 + c.toNat / 4096 - 224) * 64 + (128 + c.toNat / 64 % 64 - 128)) * 64 +
            (128 + c.toNat % 64 - 128) = c.toNat := by
          omega
        rw [harg, Char.ofNat_toNat]
      · rw [if_neg h1, if_neg h2, if_neg h3]
        simp only [List.cons_append, List.nil_append]
        rw [utf8Decode_b4 _ _ _ _ _ (by omega) (by omega) (by simp [isCont]; omega)
          (by simp [isCont]; omega) (by simp [isCont]; omega)]
        have harg : (((240 + c.toNat / 262144 - 240) * 64 + (128 + c.toNat / 4096 % 64 - 128)) * 64 +
            (128 + c.toNat / 64 % 64 - 128)) * 64 + (128 + c.toNat % 64 - 128) = c.toNat := by
          omega
        rw [harg, Char.ofNat_toNat]

theorem toBytes_pct (bs : List Nat) (rest : List Char) (h : ∀ b ∈ bs, b < 256) :
    toBytes (pctEncBytes bs ++ rest) = Option.map (fun t => bs ++ t) (toBytes rest) := by
  induction bs with
  | nil =>
    simp only [pctEncBytes, List.nil_append]
    cases toBytes rest <;> simp
  | cons b bs ih =>
    have hb : b < 256 := h b (by simp)
    have hh := hexVal_hexDigit (b / 16) (by omega)
    have hl := hexVal_hexDigit (b % 16) (by omega)
    have hbb : 16 * (b / 16) + b % 16 = b := by omega
    simp only [pctEncBytes, List.cons_append]
    simp only [toBytes, hh, hl, ih (fun y hy => h y (by simp [hy])), reduceIte]
    cases toBytes rest <;> simp [hbb]

theorem toBytes_encChar (c : Char) (rest : List Char) :
    toBytes (encChar c ++ rest) = Option.map (fun t => utf8Bytes c ++ t) (toBytes rest) := by
  unfold encChar
  by_cases hu : isUnreservedChar c = true
  · rw [if_pos hu]
    have hpc : ¬ c = '%' := by
      intro he
      rw [he] at hu
      exact absurd hu (by decide)
    simp only [List.cons_append, List.nil_append]
    conv_lhs => rw [toBytes.eq_def]
    dsimp only
    rw [if_neg hpc]
  · rw [if_neg hu]
    exact toBytes_pct (utf8Bytes c) rest (utf8Bytes_lt c)

theorem toBytes_encodeL (l : List Char) : toBytes (encodeL l) = some (utf8EncL l) := by
  induction l with
  | nil => rfl
  | cons c cs ih =>
    simp only [encodeL, utf8EncL]
    rw [toBytes_encChar, ih]
    rfl

theorem utf8Decode_encL (l : List Char) : utf8Decode (utf8EncL l) = some l := by
  induction l with
  | nil => simp [utf8EncL, utf8Decode]
  | cons c cs ih =>
    simp only [utf8EncL]
    rw [utf8Decode_utf8Bytes, ih]
    rfl

theorem percentDecode_encode (l : List Char) : percentDecodeL (encodeL l) = some l := by
  unfold percentDecodeL
  rw [toBytes_encodeL]
  exact utf8Decode_encL l

theorem parsePairs_cons (k vs : String) (segs : List (List Char)) :
    parsePairs ((encodeL k.data ++ '=' :: encodeL vs.data) :: segs) =
      Option.map (fun tl => (k, vs) :: tl) (parsePairs segs) := by
  simp only [parsePairs,
    splitFirst_append '=' (encodeL k.data) (encodeL vs.data) (encodeL_not_mem k.data).2,
    percentDecode_encode]
  cases parsePairs segs <;> rfl

theorem seg_data (k vs : String) :
    (encodeURIComponent k ++ "=" ++ encodeURIComponent vs).data =
      encodeL k.data ++ '=' :: encodeL vs.data := by
  simp [String.data_append, encodeURIComponent]

theorem seg_ne_nil (k vs : String) :
    (encodeURIComponent k ++ "=" ++ encodeURIComponent vs).data ≠ [] := by
  rw [seg_data]
  cases encodeL k.data <;> simp

theorem seg_no_amp (k vs : String) :
    '&' ∉ (encodeURIComponent k ++ "=" ++ encodeURIComponent vs).data := by
  rw [seg_data]
  intro hm
  rcases List.mem_append.mp hm with hm | hm
  · exact (encodeL_not_mem k.data).1 hm
  · rcases List.mem_cons.mp hm with hm | hm
    · exact absurd hm (by decide)
    · exact (encodeL_not_mem vs.data).1 hm

theorem serialize_cons_data_ne (kv : String × Scalar) (rest : ParamsMap) :
    (serialize (kv :: rest)).data ≠ [] := by
  cases rest with
  | nil =>
    show (encodeURIComponent kv.1 ++ "=" ++ encodeURIComponent kv.2.toStr).data ≠ []
    exact seg_ne_nil kv.1 kv.2.toStr
  | cons kv2 rest2 =>
    show ((encodeURIComponent kv.1 ++ "=" ++ encodeURIComponent kv.2.toStr) ++ "&" ++
      serialize (kv2 :: rest2)).data ≠ []
    simp only [String.data_append]
    simp

/-! ### Claims -/

/-- C1: the spec claims every verb request goes to the urlRoot concatenated
with the url.  The code stores urlRoot and defines makeUrl accordingly, but
no verb method ever applies it: a transport built with the sample root and
called on the sample path requests the bare path. -/
theorem claim1_urlRoot_never_applied :
    HttpTransport.get ⟨"http://api.test/v2"⟩ (.str "/users") (some []) =
      .ok ⟨"/users", "GET", "", []⟩ ∧
    HttpTransport.post ⟨"http://api.test/v2"⟩ (.str "/users") (some []) =
      .ok ⟨"/users", "POST", "",
        [("Content-Type", "application/x-www-form-urlencoded"), ("Cache-Control", "no-cache")]⟩ ∧
    HttpTransport.put ⟨"http://api.test/v2"⟩ (.str "/users") (some []) =
      .ok ⟨"/users", "PUT", "",
        [("Content-Type", "application/x-www-form-urlencoded"), ("Cache-Control", "no-cache")]⟩ ∧
    HttpTransport.delete ⟨"http://api.test/v2"⟩ (.str "/users") (some []) =
      .ok ⟨"/users", "DELETE", "", []⟩ ∧
    HttpTransport.makeUrl ⟨"http://api.test/v2"⟩ "/users" = "http://api.test/v2/users" ∧
    ("/users" : String) ≠ "http://api.test/v2/users" := by
  decide

/-- C2: the spec claims get places the serialized params in the url query
string.  In the httpinvoke-input revision the serialized params become the
request input (body) and the requested url carries no query at all; only the
urlUtil revision of get puts them in the url. -/
theorem claim2_get_params_sent_as_body :
    HttpTransport.get ⟨""⟩ (.str "/users") (some [("group", .s "admins")]) =
      .ok ⟨"/users", "GET", "group=admins", []⟩ ∧
    containsSub "/users" "group=admins" = false ∧
    httpTransportGetV2 (.str "/users") (some [("group", .s "admins")]) =
      .ok ⟨"/users?group=admins", "GET", "", []⟩ ∧
    containsSub "/users?group=admins" "group=admins" = true := by
  decide

/-- C3: the spec claims an absent payload defaults to an empty mapping for
every verb.  get and delete do default it (serialized input empty), but post
and put pass the absent value straight to Object.keys, which throws a
TypeError before the transport capability is invoked. -/
theorem claim3_absent_payload_post_throws :
    HttpTransport.get ⟨""⟩ (.str "/users") none =
      HttpTransport.get ⟨""⟩ (.str "/users") (some []) ∧
    HttpTransport.get ⟨""⟩ (.str "/users") none = .ok ⟨"/users", "GET", "", []⟩ ∧
    HttpTransport.delete ⟨""⟩ (.str "/users") none =
      HttpTransport.delete ⟨""⟩ (.str "/users") (some []) ∧
    HttpTransport.post ⟨""⟩ (.str "/blogs") none =
      .error (.typeError "Cannot convert undefined or null to object") ∧
    HttpTransport.put ⟨""⟩ (.str "/blogs") none =
      .error (.typeError "Cannot convert undefined or null to object") ∧
    HttpTransport.post ⟨""⟩ (.str "/blogs") (some []) =
      .ok ⟨"/blogs", "POST", "",
        [("Content-Type", "application/x-www-form-urlencoded"), ("Cache-Control", "no-cache")]⟩ := by
  decide

/-- C4 counterexample: calling the JSONP variant's put with the non-string
url 123 fails with the plain not-implemented Error, not with a type error,
so the claim that every verb of every variant fails with an InvalidArgument
type error on a non-string url is false. -/
theorem claim4_counterexample :
    JsonpTransport.put ⟨""⟩ (.num 123) none = .error (.errorMsg "not implemented") ∧
    JsErr.isTypeError (.errorMsg "not implemented") = false := by
  decide

/-- C4 amended: every verb method of the direct HTTP variant called with a
non-string (or absent) url fails synchronously with a TypeError before any
request is built; the JSONP variant's write verbs instead fail with the
not-implemented error regardless of their arguments (and its get performs no
explicit url type check). -/
theorem claim4_http_verbs_typecheck_url (t : HttpTransport) (u : JsVal) (p : Option ParamsMap)
    (h : u.isString = false) :
    t.get u p = .error (.typeError "url") ∧
    t.post u p = .error (.typeError "url") ∧
    t.put u p = .error (.typeError "url") ∧
    t.delete u p = .error (.typeError "url") ∧
    (∀ (jt : JsonpTransport) (u2 : JsVal) (p2 : Option ParamsMap),
      jt.post u2 p2 = .error (.errorMsg "not implemented") ∧
      jt.put u2 p2 = .error (.errorMsg "not implemented") ∧
      jt.delete u2 p2 = .error (.errorMsg "not implemented")) := by
  cases u with
  | str s => exact absurd h (by simp [JsVal.isString])
  | num n => exact ⟨rfl, rfl, rfl, rfl, fun _ _ _ => ⟨rfl, rfl, rfl⟩⟩
  | boolean b => exact ⟨rfl, rfl, rfl, rfl, fun _ _ _ => ⟨rfl, rfl, rfl⟩⟩
  | nullV => exact ⟨rfl, rfl, rfl, rfl, fun _ _ _ => ⟨rfl, rfl, rfl⟩⟩
  | undef => exact ⟨rfl, rfl, rfl, rfl, fun _ _ _ => ⟨rfl, rfl, rfl⟩⟩

/-- C4 witness: the amended theorem applied at the concrete non-string url
123 on a concrete transport. -/
theorem claim4_http_verbs_typecheck_url_witness :
    JsVal.isString (.num 123) = false ∧
    HttpTransport.get ⟨""⟩ (.num 123) none = .error (.typeError "url") :=
  ⟨by decide, (claim4_http_verbs_typecheck_url ⟨""⟩ (.num 123) none (by decide)).1⟩

/-- C5: for a descriptor whose headers carry a content-type value, the
guarded deserialize replaces the string body with the JSON parse of that
string exactly when the content-type contains the application/json
substring, and otherwise returns the descriptor with the raw string body
untouched. -/
theorem claim5_deserialize_json_iff (r : Resp) (hs : List (String × String)) (ct s : String)
    (hh : r.headers = some hs) (hct : lookupHeader hs "content-type" = some ct)
    (hb : r.body = .str s) :
    (deserialize (some r) = some { r with body := .jsonParse (.str s) } ↔
      containsSub ct "application/json" = true) ∧
    (containsSub ct "application/json" = false → deserialize (some r) = some r) := by
  obtain ⟨sc, hs0, b0⟩ := r
  dsimp only at hh hb
  subst hh
  subst hb
  simp only [deserialize, deserializeResp, hct]
  by_cases hjson : containsSub ct "application/json" = true
  · have hne : ct ≠ "" := by
      intro he
      rw [he] at hjson
      exact absurd hjson (by decide)
    rw [if_neg hne, if_pos hjson]
    refine ⟨⟨fun _ => hjson, fun _ => rfl⟩, ?_⟩
    intro hfalse
    rw [hfalse] at hjson
    exact absurd hjson (by decide)
  · have hres : (if ct = "" then (⟨sc, some hs, .str s⟩ : Resp)
        else if containsSub ct "application/json" = true then ⟨sc, some hs, .jsonParse (.str s)⟩
        else ⟨sc, some hs, .str s⟩) = ⟨sc, some hs, .str s⟩ := by
      by_cases hct0 : ct = ""
      · rw [if_pos hct0]
      · rw [if_neg hct0, if_neg hjson]
    rw [hres]
    refine ⟨⟨fun he => absurd (Option.some.inj he) (by simp), fun he => absurd he hjson⟩, ?_⟩
    intro _
    rfl

/-- C5 witness: the theorem applied to the concrete descriptor with the
application/json content-type and the string body, producing the parsed
body. -/
theorem claim5_deserialize_json_iff_witness :
    deserialize (some ⟨200, some [("content-type", "application/json")], .str "[1]"⟩) =
      some ⟨200, some [("content-type", "application/json")], .jsonParse (.str "[1]")⟩ :=
  ((claim5_deserialize_json_iff ⟨200, some [("content-type", "application/json")], .str "[1]"⟩
      [("content-type", "application/json")] "application/json" "[1]" rfl rfl rfl).1).mpr
    (by decide)

/-- C6: the spec claims the deserializer returns the descriptor unchanged and
does not fail when headers are absent or carry no content-type.  The guarded
revision does so, but the unguarded revision reads indexOf off the undefined
content-type and throws a TypeError when headers are present without a
content-type entry. -/
theorem claim6_unguarded_deserialize_throws :
    deserialize (some ⟨200, none, .str "[1]"⟩) = some ⟨200, none, .str "[1]"⟩ ∧
    deserialize (some ⟨200, some [], .str "[1]"⟩) = some ⟨200, some [], .str "[1]"⟩ ∧
    deserializeV2 (some ⟨200, none, .str "[1]"⟩) = .ok (some ⟨200, none, .str "[1]"⟩) ∧
    deserializeV2 (some ⟨200, some [], .str "[1]"⟩) =
      .error (.typeError "Cannot read property indexOf of undefined") := by
  decide

/-- C7: the JSONP variant's post, put and delete fail synchronously and
deterministically with the not-implemented Error (the spec's
UnsupportedOperation) for all argument values, producing no request. -/
theorem claim7_jsonp_writes_always_unsupported (t : JsonpTransport) (u : JsVal)
    (p : Option ParamsMap) :
    t.post u p = .error (.errorMsg "not implemented") ∧
    t.put u p = .error (.errorMsg "not implemented") ∧
    t.delete u p = .error (.errorMsg "not implemented") :=
  ⟨rfl, rfl, rfl⟩

/-- C9 counterexample: for a caller mapping that already has a callback key,
the JSONP get overwrites it, so the resulting mapping does not contain the
original entry alongside the added one: the claim fails as stated for every
params mapping. -/
theorem claim9_counterexample :
    (JsonpTransport.getAt ⟨""⟩ 42 "/u" (some 0)
        (fun n => if n = 0 then some [("callback", .s "x")] else none)).1 0 =
      some [("callback", .s "JsonpTransport42")] ∧
    ("callback", Scalar.s "x") ∉ [("callback", Scalar.s "JsonpTransport42")] := by
  decide

/-- C9 amended: the JSONP get mutates the caller-supplied mapping in place
(the store changes only at the caller's address, which keeps referring to the
updated mapping): the callback key is added, or overwritten if already
present, with the timestamp-based value, and every entry under any other key
is preserved. -/
theorem claim9_jsonp_get_mutates_params (t : JsonpTransport) (now a : Nat) (url : String)
    (σ : ParamsStore) (m : ParamsMap) (h : σ a = some m) :
    ((t.getAt now url (some a) σ).1 a =
      some (jsSet m "callback" (.s (jsonpCallbackName now)))) ∧
    (∀ k v, k ≠ "callback" →
      ((k, v) ∈ m ↔ (k, v) ∈ jsSet m "callback" (.s (jsonpCallbackName now)))) ∧
    lookupParam (jsSet m "callback" (.s (jsonpCallbackName now))) "callback" =
      some (.s (jsonpCallbackName now)) ∧
    (∀ b, b ≠ a → (t.getAt now url (some a) σ).1 b = σ b) := by
  simp only [JsonpTransport.getAt, h]
  refine ⟨by simp [updateParams], ?_, lookupParam_jsSet_self m _ _, ?_⟩
  · intro k v hk
    exact (jsSet_mem_of_ne m _ _ k v hk).symm
  · intro b hb
    simp [updateParams, hb]

/-- C9 witness: the amended theorem applied at a concrete store holding a
concrete mapping at address 0. -/
theorem claim9_jsonp_get_mutates_params_witness :
    (fun n => if n = 0 then some [("g", Scalar.s "a")] else none : ParamsStore) 0 =
      some [("g", Scalar.s "a")] ∧
    (JsonpTransport.getAt ⟨""⟩ 7 "/u" (some 0)
        (fun n => if n = 0 then some [("g", Scalar.s "a")] else none)).1 0 =
      some (jsSet [("g", Scalar.s "a")] "callback" (.s (jsonpCallbackName 7))) :=
  ⟨rfl, (claim9_jsonp_get_mutates_params ⟨""⟩ 7 0 "/u"
      (fun n => if n = 0 then some [("g", Scalar.s "a")] else none) [("g", Scalar.s "a")] rfl).1⟩

/-- C10: applying the guarded deserialize to the descriptor object at an
address returns that same address (the same object, no fresh copy), leaves
every other address untouched, and leaves the object's statusCode and
headers fields equal to their input values: at most the body field changes. -/
theorem claim10_deserialize_frame (a : Nat) (σ : RespStore) (r : Resp) (h : σ a = some r) :
    (deserializeAt a σ).2 = a ∧
    (∀ b, b ≠ a → (deserializeAt a σ).1 b = σ b) ∧
    (∃ r2, (deserializeAt a σ).1 a = some r2 ∧
      r2.statusCode = r.statusCode ∧ r2.headers = r.headers) := by
  obtain ⟨sc, hs?, body⟩ := r
  cases hs? with
  | none =>
    simp only [deserializeAt, h]
    exact ⟨trivial, fun b hb => trivial, ⟨⟨sc, none, body⟩, rfl, rfl, rfl⟩⟩
  | some hs =>
    cases hct : lookupHeader hs "content-type" with
    | none =>
      simp only [deserializeAt, h, hct]
      exact ⟨trivial, fun b hb => trivial, ⟨⟨sc, some hs, body⟩, rfl, rfl, rfl⟩⟩
    | some t =>
      by_cases ht0 : t = ""
      · simp only [deserializeAt, h, hct, if_pos ht0]
        exact ⟨trivial, fun b hb => trivial, ⟨⟨sc, some hs, body⟩, rfl, rfl, rfl⟩⟩
      · by_cases hj : containsSub t "application/json" = true
        · simp only [deserializeAt, h, hct, if_neg ht0, if_pos hj]
          exact ⟨trivial, fun b hb => by simp [updateResp, hb],
            ⟨⟨sc, some hs, .jsonParse body⟩, by simp [updateResp], rfl, rfl⟩⟩
        · simp only [deserializeAt, h, hct, if_neg ht0, if_neg hj]
          exact ⟨trivial, fun b hb => trivial, ⟨⟨sc, some hs, body⟩, rfl, rfl, rfl⟩⟩

/-- C10 witness: the theorem applied at a concrete store holding a concrete
json descriptor at address 0. -/
theorem claim10_deserialize_frame_witness :
    (deserializeAt 0 (fun n =>
      if n = 0 then some ⟨200, some [("content-type", "application/json")], .str "[1]"⟩
      else none)).2 = 0 :=
  (claim10_deserialize_frame 0 _ ⟨200, some [("content-type", "application/json")], .str "[1]"⟩
    rfl).1

/-- C8: serializing any flat mapping and then parsing the resulting query
string back (percent-decoding both sides of the first equals sign of every
ampersand-separated segment) recovers the mapping with every value in its
string form, and the empty mapping serializes to the empty string. -/
theorem claim8_serialize_roundtrip :
    serialize ([] : ParamsMap) = "" ∧
    ∀ m : ParamsMap,
      parseQueryString (serialize m) = some (m.map fun kv => (kv.1, kv.2.toStr)) := by
  constructor
  · rfl
  · intro m
    induction m with
    | nil => rfl
    | cons kv rest ih =>
      obtain ⟨k, v⟩ := kv
      cases rest with
      | nil =>
        have hser : serialize [(k, v)] = encodeURIComponent k ++ "=" ++ encodeURIComponent v.toStr :=
          rfl
        rw [hser]
        unfold parseQueryString
        rw [if_neg (seg_ne_nil k v.toStr)]
        rw [splitOn_no_sep '&' _ (seg_no_amp k v.toStr), seg_data, parsePairs_cons]
        rfl
      | cons kv2 rest2 =>
        have hser : serialize ((k, v) :: kv2 :: rest2) =
            (encodeURIComponent k ++ "=" ++ encodeURIComponent v.toStr) ++ "&" ++
              serialize (kv2 :: rest2) := rfl
        have hdata : (serialize ((k, v) :: kv2 :: rest2)).data =
            (encodeURIComponent k ++ "=" ++ encodeURIComponent v.toStr).data ++
              '&' :: (serialize (kv2 :: rest2)).data := by
          rw [hser]
          simp [String.data_append]
        have hqn : (serialize ((k, v) :: kv2 :: rest2)).data ≠ [] :=
          serialize_cons_data_ne (k, v) (kv2 :: rest2)
        have ihp : parsePairs (splitOnCh '&' (serialize (kv2 :: rest2)).data) =
            some ((kv2 :: rest2).map fun kv => (kv.1, kv.2.toStr)) := by
          have hi := ih
          unfold parseQueryString at hi
          rw [if_neg (serialize_cons_data_ne kv2 rest2)] at hi
          exact hi
        unfold parseQueryString
        rw [if_neg hqn, hdata, splitOn_append '&' _ _ (seg_no_amp k v.toStr), seg_data,
          parsePairs_cons, ihp]
        rfl

end HttpTransportLib
